import Mathlib

/-!
Shallow embedding of the card-game backend: deck building, hand scoring,
room state and the socket event handlers, together with proofs of the
specification's testable properties.

Conventions used throughout:
* JavaScript numbers that hold scores and round counters are modelled as
  `Int`; list positions are `Nat`, except the room's `turn`, which is an
  `Int` because the code stores `findIndex` results (`-1` is possible).
* `Math.random`-driven choices (ranked-card id strings, the shuffle, and
  decks rebuilt mid-game) are explicit parameters of the functions that
  use them.
* A handler that returns early without mutating the room — including a
  JavaScript `TypeError` crash on `undefined`, which aborts the handler
  before any mutation happens — is modelled as `none`.
-/

namespace Cards3

/-- Card ranks: `'A','2'..'10','J','Q','K'` plus the `'Joker'` marker. -/
inductive Rank where
  | ace
  | num (n : Nat)
  | jack
  | queen
  | king
  | joker
deriving DecidableEq, Repr

/-- `{ suit, rank, id }` objects pushed by `createDeck`. -/
structure Card where
  suit : String
  rank : Rank
  id : String
deriving DecidableEq, Repr

/-- Per-card contribution of the `reduce` body in `calculateScore`:
a joker or a card matching the open joker's rank is 0 points, `J`/`Q`/`K`
are 10, `A` is 1, and a numeric rank counts `parseInt(card.rank)`.
(The `if (!card)` guard of the source skips `undefined` slots; hands are
modelled as lists of real cards, so that branch has no counterpart.) -/
def cardValue (openJokerRank : Rank) (c : Card) : Int :=
  if c.rank = Rank.joker ∨ c.rank = openJokerRank then 0
  else if c.rank = Rank.jack ∨ c.rank = Rank.queen ∨ c.rank = Rank.king then 10
  else if c.rank = Rank.ace then 1
  else
    match c.rank with
    | Rank.num n => (n : Int)
    | _ => 0

/-- `calculateScore(hand, openJokerRank)`: left fold of the per-card
contributions, starting from 0 (`hand.reduce(..., 0)`). -/
def calculateScore (hand : List Card) (openJokerRank : Rank) : Int :=
  hand.foldl (fun total c => total + cardValue openJokerRank c) 0

/-- The per-card contribution as the specification words it: a card whose
rank is the Joker marker or equals the open joker's rank contributes 0, a
face rank (J, Q, K) contributes the fixed face value 10, an Ace contributes
1, and a numeric rank contributes its numeric value. -/
def specCardContribution (openJokerRank : Rank) (c : Card) : Int :=
  if c.rank = Rank.joker ∨ c.rank = openJokerRank then 0
  else
    match c.rank with
    | Rank.jack | Rank.queen | Rank.king => 10
    | Rank.ace => 1
    | Rank.num n => (n : Int)
    | Rank.joker => 0

/-- The four suit symbols of `createDeck`. -/
def suits : List String := ["♠", "♣", "♥", "♦"]

/-- The thirteen ranks of `createDeck`. -/
def ranks : List Rank :=
  [Rank.ace, Rank.num 2, Rank.num 3, Rank.num 4, Rank.num 5, Rank.num 6,
   Rank.num 7, Rank.num 8, Rank.num 9, Rank.num 10, Rank.jack, Rank.queen,
   Rank.king]

/-- The 52 suit × rank pairs visited by the nested `for` loops. -/
def allSuitRanks : List (String × Rank) :=
  suits.flatMap (fun s => ranks.map (fun r => (s, r)))

/-- The 52 ranked cards, with the id string of the `i`-th pushed card
supplied by the generator `ids` (the source draws each id from
`Math.random().toString(36).substr(2, 9)`). -/
def rankedCards (ids : Nat → String) : List Card :=
  allSuitRanks.enum.map (fun p => { suit := p.2.1, rank := p.2.2, id := ids p.1 })

/-- The two jokers pushed after the loops. -/
def jokerCards : List Card :=
  [{ suit := "🃏", rank := Rank.joker, id := "Joker1" },
   { suit := "🃏", rank := Rank.joker, id := "Joker2" }]

/-- The deck contents before the shuffle. -/
def baseDeck (ids : Nat → String) : List Card :=
  rankedCards ids ++ jokerCards

/-- `createDeck()`: build the 54 cards and shuffle them.  The source
shuffles with `deck.sort(() => Math.random() - 0.5)`, which rearranges the
deck; the rearrangement is passed in as `shuffle` (theorems assume it
yields a permutation of its input, and the identity is one admissible
outcome). -/
def createDeck (ids : Nat → String) (shuffle : List Card → List Card) : List Card :=
  shuffle (baseDeck ids)

theorem cardValue_eq_specCardContribution (jr : Rank) (c : Card) :
    cardValue jr c = specCardContribution jr c := by
  rcases c with ⟨s, r, i⟩
  cases r <;> simp [cardValue, specCardContribution]

theorem cardValue_nonneg (jr : Rank) (c : Card) : 0 ≤ cardValue jr c := by
  rcases c with ⟨s, r, i⟩
  cases r <;> simp [cardValue] <;> split <;> simp

theorem calculateScore_eq_sum (hand : List Card) (jr : Rank) :
    calculateScore hand jr = (hand.map (cardValue jr)).sum := by
  have h : ∀ (l : List Card) (a : Int),
      l.foldl (fun total c => total + cardValue jr c) a = a + (l.map (cardValue jr)).sum := by
    intro l
    induction l with
    | nil => intro a; simp
    | cons c cs ih => intro a; simp [List.foldl_cons, ih, add_assoc]
  simpa using h hand 0

theorem calculateScore_nonneg (hand : List Card) (jr : Rank) :
    0 ≤ calculateScore hand jr := by
  rw [calculateScore_eq_sum]
  apply List.sum_nonneg
  intro x hx
  rcases List.mem_map.mp hx with ⟨c, _, rfl⟩
  exact cardValue_nonneg jr c

/-! ## Room data model -/

/-- Per-player state kept in `room.players`. -/
structure Player where
  id : String
  username : String
  hand : List Card
  totalScore : Int
  eliminated : Bool
  currentDrawnCard : Option Card
deriving DecidableEq, Repr

/-- `room.status` takes exactly the string values LOBBY, PLAYING, WINNER. -/
inductive Status where
  | LOBBY
  | PLAYING
  | WINNER
deriving DecidableEq, Repr

/-- The per-room session state stored in the `rooms` registry. -/
structure Room where
  roomId : String
  players : List Player
  deck : List Card
  openJoker : Option Card
  turn : Int
  status : Status
  hostId : String
  roundLimit : Int
  currentRound : Int
deriving DecidableEq, Repr

/-- The targeted signal emitted to the caller by `declare_show`. -/
inductive ShowSignal where
  | celebration
  | penalty
deriving DecidableEq, Repr

/-- `deck.pop()`: remove and return the last element of the array. -/
def popTop (d : List Card) : Option Card × List Card :=
  (d.getLast?, d.dropLast)

/-- The player object pushed by `create_room` / `join_room`. -/
def newPlayer (socketId username : String) : Player :=
  { id := socketId, username := username, hand := [], totalScore := 0,
    eliminated := false, currentDrawnCard := none }

/-- The non-eliminated players: `room.players.filter(p => !p.eliminated)`. -/
def activePlayers (room : Room) : List Player :=
  room.players.filter (fun p => !p.eliminated)

/-- `create_room`: fresh room with the creator as sole player and host.
The randomly generated room code and the parsed round limit
(`parseInt(roundLimit) || 5`) are passed in. -/
def create_room (socketId username : String) (roundLimit : Int) (roomId : String) : Room :=
  { roomId := roomId, players := [newPlayer socketId username], deck := [],
    openJoker := none, turn := 0, status := Status.LOBBY, hostId := socketId,
    roundLimit := roundLimit, currentRound := 1 }

/-- `join_room`: rejected unless the status is LOBBY or WINNER; otherwise a
fresh player is appended. -/
def join_room (room : Room) (socketId username : String) : Option Room :=
  if room.status ≠ Status.LOBBY ∧ room.status ≠ Status.WINNER then none
  else some { room with players := room.players ++ [newPlayer socketId username] }

/-- The `forEach` of `start_game`: every player's staged card is cleared;
non-eliminated players receive three cards popped from the shared deck,
eliminated players' hands are cleared.  (Pops of an exhausted deck yield
`undefined` in the source; such missing cards are dropped from the hand
here rather than stored.) -/
def dealHands : List Player → List Card → List Player × List Card
  | [], d => ([], d)
  | p :: ps, d =>
    if p.eliminated then
      let r := dealHands ps d
      ({ p with currentDrawnCard := none, hand := [] } :: r.1, r.2)
    else
      let t1 := popTop d
      let t2 := popTop t1.2
      let t3 := popTop t2.2
      let r := dealHands ps t3.2
      ({ p with currentDrawnCard := none,
                hand := ([t1.1, t2.1, t3.1].reduceOption) } :: r.1, r.2)

/-- `start_game`: host only.  Rebuilds the deck (the freshly built shuffled
deck is the parameter `freshDeck`), pops the open joker, deals hands, sets
the turn to `findIndex(p => !p.eliminated)` (`-1` when every player is
eliminated) and the status to PLAYING. -/
def start_game (room : Room) (socketId : String) (freshDeck : List Card) : Option Room :=
  if room.hostId ≠ socketId then none
  else
    let t0 := popTop freshDeck
    let dealt := dealHands room.players t0.2
    let turnIdx : Int :=
      match room.players.findIdx? (fun p => !p.eliminated) with
      | some i => (i : Int)
      | none => -1
    some { room with deck := dealt.2, openJoker := t0.1, status := Status.PLAYING,
                     players := dealt.1, turn := turnIdx }

/-- `room.players[room.turn]`, `undefined` when the index is out of range. -/
def playerAtTurn (room : Room) : Option Player :=
  if room.turn < 0 then none else room.players.get? room.turn.toNat

/-- `draw_card`: rejected unless the requester is the player at `turn`
(an out-of-range `turn` crashes on `undefined.id`, mutating nothing).  An
empty deck is first replaced by a freshly built one (`freshDeck`); then the
top card is popped into the requester's staging slot. -/
def draw_card (room : Room) (socketId : String) (freshDeck : List Card) : Option Room :=
  match playerAtTurn room with
  | none => none
  | some tp =>
    if tp.id ≠ socketId then none
    else
      let deck0 := if room.deck.length = 0 then freshDeck else room.deck
      let t := popTop deck0
      match room.players.findIdx? (fun p => p.id == socketId) with
      | none => none
      | some i =>
        match room.players.get? i with
        | none => none
        | some p =>
          some { room with deck := t.2,
                           players := room.players.set i { p with currentDrawnCard := t.1 } }

/-- The `while` loop advancing `nextTurn` past eliminated players: runs
while `players[nextTurn].eliminated && attempts < players.length`; the
remaining permitted iterations are the `fuel` argument. -/
def advanceTurn (players : List Player) : Nat → Nat → Nat
  | nt, 0 => nt
  | nt, fuel + 1 =>
    if (players.get? nt).elim false Player.eliminated then
      advanceTurn players ((nt + 1) % players.length) fuel
    else nt

/-- Update the first list entry satisfying `pred` (the object returned by
`players.find`, mutated in place by the source). -/
def updateFirst (pred : Player → Bool) (f : Player → Player) : List Player → List Player
  | [] => []
  | p :: ps => if pred p then f p :: ps else p :: updateFirst pred f ps

/-- `replace_card`: rejected unless the requester is found among the
players and holds a staged card.  The staged card replaces every hand card
whose id is `cardToDiscardId`, the staging slot is cleared, and `turn`
moves to the next index not marked eliminated, searched with at most
`players.length` steps. -/
def replace_card (room : Room) (socketId cardToDiscardId : String) : Option Room :=
  match room.players.findIdx? (fun p => p.id == socketId) with
  | none => none
  | some i =>
    match room.players.get? i with
    | none => none
    | some player =>
      match player.currentDrawnCard with
      | none => none
      | some staged =>
        let player' := { player with
          hand := player.hand.map (fun c => if c.id == cardToDiscardId then staged else c),
          currentDrawnCard := none }
        let players' := room.players.set i player'
        let len := players'.length
        let nt0 : Nat := ((room.turn + 1).emod (len : Int)).toNat
        let nt := advanceTurn players' nt0 len
        some { room with players := players', turn := (nt : Int) }

/-- The id/score pairs computed over the active players by `declare_show`. -/
def scoreActive (room : Room) (jr : Rank) : List (String × Int) :=
  (activePlayers room).map (fun p => (p.id, calculateScore p.hand jr))

/-- The round counter / elimination block of `declare_show`: when the
round limit is reached, every non-eliminated player whose `totalScore`
equals the maximum among active players is marked eliminated and the round
counter resets to 1 (with no active players, `Math.max()` is `-Infinity`
and nobody matches); otherwise the round counter increments. -/
def elimPhase (room : Room) : Room :=
  if room.currentRound ≥ room.roundLimit then
    match ((activePlayers room).map Player.totalScore).max? with
    | none => { room with currentRound := 1 }
    | some highest =>
      { room with
        players := room.players.map (fun p =>
          if !p.eliminated && p.totalScore == highest then
            { p with eliminated := true }
          else p),
        currentRound := 1 }
  else { room with currentRound := room.currentRound + 1 }

/-- `otherScores`: the scores of the active players other than the caller
(`scores.filter(s => s.id !== socket.id).map(s => s.score)`). -/
def otherScoresOf (room : Room) (sid : String) (jr : Rank) : List Int :=
  ((scoreActive room jr).filter (fun s => s.1 != sid)).map Prod.snd

/-- `callerScore < Math.min(...otherScores)`.  `Math.min()` of an empty
argument list is `Infinity` (here: `min?` is `none`), in which case the
comparison holds for any caller score. -/
def showSuccess (callerScore : Int) (others : List Int) : Bool :=
  match others.min? with
  | none => true
  | some m => decide (callerScore < m)

/-- Successful show: every non-eliminated player other than the caller
adds their own hand score to their cumulative total. -/
def successPlayers (room : Room) (sid : String) (jr : Rank) : List Player :=
  room.players.map (fun p =>
    if !p.eliminated && p.id != sid then
      { p with totalScore := p.totalScore + calculateScore p.hand jr }
    else p)

/-- Failed bluff: the caller (the first player object with the caller's
id, as returned by `players.find`) gains `callerScore + 25` penalty
points. -/
def penaltyPlayers (room : Room) (sid : String) (callerScore : Int) : List Player :=
  updateFirst (fun p => p.id == sid)
    (fun p => { p with totalScore := p.totalScore + (callerScore + 25) })
    room.players

/-- The final status assignment of `declare_show`: WINNER when at most one
non-eliminated player remains, LOBBY otherwise. -/
def postStatus (room : Room) : Room :=
  { room with
    status :=
      if (room.players.filter (fun p => !p.eliminated)).length ≤ 1 then Status.WINNER
      else Status.LOBBY }

/-- `declare_show`: score the active players (crashing without mutation
when `openJoker` is null or the caller is not among the active players,
since `scores.find(...)` is then `undefined`); compare the caller's score
with `Math.min(...otherScores)`.  On success every other active player
adds their own hand score to their total and the caller receives
`celebration`; otherwise the caller's total grows by `callerScore + 25`
and the caller receives `penalty`.  The elimination block then runs, and
the status becomes WINNER when at most one active player remains, LOBBY
otherwise. -/
def declare_show (room : Room) (socketId : String) : Option (Room × ShowSignal) :=
  match room.openJoker with
  | none => none
  | some oj =>
    match (scoreActive room oj.rank).find? (fun s => s.1 == socketId) with
    | none => none
    | some callerEntry =>
      let success := showSuccess callerEntry.2 (otherScoresOf room socketId oj.rank)
      let players1 :=
        if success then successPlayers room socketId oj.rank
        else penaltyPlayers room socketId callerEntry.2
      let signal := if success then ShowSignal.celebration else ShowSignal.penalty
      some (postStatus (elimPhase { room with players := players1 }), signal)

/-- Result of running the disconnect cleanup against one room. -/
inductive DisconnectResult where
  | notMember
  | deleted
  | updated (room : Room)
deriving DecidableEq, Repr

/-- The body of the `disconnect` handler for a single room: if the leaver
is found, splice them out; if they were host and players remain, the first
remaining player becomes host; if no players remain the room is deleted
from the registry. -/
def disconnect_room (room : Room) (socketId : String) : DisconnectResult :=
  match room.players.findIdx? (fun p => p.id == socketId) with
  | none => DisconnectResult.notMember
  | some i =>
    let players' := room.players.eraseIdx i
    match players' with
    | [] => DisconnectResult.deleted
    | q :: qs =>
      DisconnectResult.updated
        { room with players := q :: qs,
                    hostId := if room.hostId = socketId then q.id else room.hostId }

/-- The `for (const roomId in rooms)` loop of the disconnect handler over
the whole registry (an association list keyed by room id). -/
def disconnect_registry (roomsReg : List (String × Room)) (socketId : String) :
    List (String × Room) :=
  roomsReg.filterMap (fun e =>
    match disconnect_room e.2 socketId with
    | DisconnectResult.notMember => some e
    | DisconnectResult.deleted => none
    | DisconnectResult.updated r => some (e.1, r))

/-! ## Helper lemmas -/

theorem baseDeck_map_id (ids : Nat → String) :
    (baseDeck ids).map Card.id = (List.range 52).map ids ++ ["Joker1", "Joker2"] := by
  have h2 : allSuitRanks.length = 52 := by decide
  have h1 : (rankedCards ids).map Card.id = (List.range 52).map ids := by
    calc (rankedCards ids).map Card.id
        = allSuitRanks.enum.map (fun p => ids p.1) := by
          rw [rankedCards, List.map_map]; rfl
      _ = (allSuitRanks.enum.map Prod.fst).map ids := by rw [List.map_map]; rfl
      _ = (List.range 52).map ids := by rw [List.enum_map_fst, h2]
  simp [baseDeck, jokerCards, h1]

theorem baseDeck_length (ids : Nat → String) : (baseDeck ids).length = 54 := by
  have h2 : allSuitRanks.length = 52 := by decide
  simp [baseDeck, rankedCards, jokerCards, h2]

theorem lt_foldl_min (x : Int) (l : List Int) :
    ∀ a : Int, (x < l.foldl min a ↔ x < a ∧ ∀ y ∈ l, x < y) := by
  induction l with
  | nil => intro a; simp
  | cons b t ih =>
    intro a
    rw [List.foldl_cons, ih (min a b), lt_min_iff]
    simp only [List.mem_cons]
    constructor
    · rintro ⟨⟨ha, hb⟩, ht⟩
      exact ⟨ha, fun y hy => hy.elim (fun h => h ▸ hb) (ht y)⟩
    · rintro ⟨ha, ht⟩
      exact ⟨⟨ha, ht b (Or.inl rfl)⟩, fun y hy => ht y (Or.inr hy)⟩

theorem lt_min?_iff (x m : Int) (l : List Int) (h : l.min? = some m) :
    (x < m ↔ ∀ y ∈ l, x < y) := by
  cases l with
  | nil => simp [List.min?] at h
  | cons a t =>
    have hm : m = t.foldl min a := by
      simp [List.min?] at h
      exact h.symm
    rw [hm, lt_foldl_min]
    simp only [List.mem_cons]
    constructor
    · rintro ⟨ha, ht⟩
      exact fun y hy => hy.elim (fun h => h ▸ ha) (ht y)
    · intro hall
      exact ⟨hall a (Or.inl rfl), fun y hy => hall y (Or.inr hy)⟩

theorem showSuccess_iff (x : Int) (l : List Int) :
    showSuccess x l = true ↔ ∀ y ∈ l, x < y := by
  rw [showSuccess]
  cases hm : l.min? with
  | none =>
    rw [List.min?_eq_none_iff] at hm
    subst hm
    simp
  | some m =>
    simp only [decide_eq_true_eq]
    exact lt_min?_iff x m l hm

theorem scoreActive_find? (room : Room) (sid : String) (jr : Rank) (caller : Player)
    (hfind : (activePlayers room).find? (fun p => p.id == sid) = some caller) :
    (scoreActive room jr).find? (fun s => s.1 == sid)
      = some (caller.id, calculateScore caller.hand jr) := by
  rw [scoreActive, List.find?_map]
  have hcomp : ((fun s : String × Int => s.1 == sid) ∘
      (fun p : Player => (p.id, calculateScore p.hand jr))) = fun p => p.id == sid := rfl
  rw [hcomp, hfind]
  rfl

theorem otherScoresOf_eq (room : Room) (sid : String) (jr : Rank) :
    otherScoresOf room sid jr
      = ((activePlayers room).filter (fun p => p.id != sid)).map
          (fun p => calculateScore p.hand jr) := by
  rw [otherScoresOf, scoreActive, List.filter_map, List.map_map]
  rfl

theorem postStatus_players (r : Room) : (postStatus r).players = r.players := rfl

theorem postStatus_currentRound (r : Room) :
    (postStatus r).currentRound = r.currentRound := rfl

theorem map_totalScore_successPlayers (room : Room) (sid : String) (jr : Rank) :
    (successPlayers room sid jr).map Player.totalScore
      = room.players.map (fun p =>
          if !p.eliminated && p.id != sid then
            p.totalScore + calculateScore p.hand jr
          else p.totalScore) := by
  rw [successPlayers, List.map_map]
  apply List.map_congr_left
  intro p _
  rw [Function.comp_apply, apply_ite Player.totalScore]

theorem elimPhase_map_totalScore (r : Room) :
    (elimPhase r).players.map Player.totalScore = r.players.map Player.totalScore := by
  rw [elimPhase]
  split
  · split
    · rfl
    · next highest heq =>
      simp only [List.map_map]
      apply List.map_congr_left
      intro p _
      rw [Function.comp_apply, apply_ite Player.totalScore]
      split <;> rfl
  · rfl

theorem elimPhase_of_lt (r : Room) (h : r.currentRound < r.roundLimit) :
    elimPhase r = { r with currentRound := r.currentRound + 1 } := by
  rw [elimPhase, if_neg (not_le.mpr h)]

theorem successPlayers_eliminated (room : Room) (sid : String) (jr : Rank) :
    (successPlayers room sid jr).map Player.eliminated
      = room.players.map Player.eliminated := by
  rw [successPlayers, List.map_map]
  apply List.map_congr_left
  intro p _
  rw [Function.comp_apply, apply_ite Player.eliminated]
  split <;> rfl

theorem updateFirst_get? (pred : Player → Bool) (f : Player → Player) :
    ∀ (ps : List Player) (i : Nat) (q : Player),
      (updateFirst pred f ps).get? i = some q →
      ∃ p, ps.get? i = some p ∧ (q = p ∨ q = f p) := by
  intro ps
  induction ps with
  | nil => intro i q h; rw [updateFirst] at h; simp at h
  | cons p t ih =>
    intro i q h
    rw [updateFirst] at h
    by_cases hp : pred p = true
    · rw [if_pos hp] at h
      cases i with
      | zero => exact ⟨p, rfl, Or.inr (Option.some.inj h).symm⟩
      | succ n => exact ⟨q, h, Or.inl rfl⟩
    · rw [if_neg hp] at h
      cases i with
      | zero => exact ⟨p, rfl, Or.inl (Option.some.inj h).symm⟩
      | succ n => exact ih n q h

theorem updateFirst_map_totalScore (sid : String) (d : Int) :
    ∀ ps : List Player, (ps.map Player.id).Nodup →
      (updateFirst (fun p => p.id == sid)
          (fun p => { p with totalScore := p.totalScore + d }) ps).map Player.totalScore
        = ps.map (fun p => if p.id == sid then p.totalScore + d else p.totalScore) := by
  intro ps
  induction ps with
  | nil => intro h; rfl
  | cons p t ih =>
    intro hnd
    rw [List.map_cons, List.nodup_cons] at hnd
    rw [updateFirst]
    by_cases hp : (p.id == sid) = true
    · rw [if_pos hp]
      simp only [List.map_cons, if_pos hp]
      congr 1
      symm
      apply List.map_congr_left
      intro q hq
      have hpe : p.id = sid := by simpa using hp
      have hqs : ¬ q.id = sid := by
        intro hcon
        exact hnd.1 (by
          rw [hpe, ← hcon]
          exact List.mem_map_of_mem Player.id hq)
      simp [hqs]
    · rw [if_neg hp]
      simp only [List.map_cons, if_neg hp]
      congr 1
      exact ih hnd.2

theorem declare_show_eq (room : Room) (sid : String) (oj : Card) (ce : String × Int)
    (hj : room.openJoker = some oj)
    (hf : (scoreActive room oj.rank).find? (fun s => s.1 == sid) = some ce) :
    declare_show room sid =
      some (postStatus (elimPhase { room with players :=
          (if showSuccess ce.2 (otherScoresOf room sid oj.rank) then
            successPlayers room sid oj.rank
          else penaltyPlayers room sid ce.2) }),
        if showSuccess ce.2 (otherScoresOf room sid oj.rank) then ShowSignal.celebration
        else ShowSignal.penalty) := by
  simp only [declare_show, hj, hf]

theorem active_map_id_nodup (room : Room)
    (hnd : (room.players.map Player.id).Nodup) :
    ((activePlayers room).map Player.id).Nodup :=
  ((List.filter_sublist room.players).map Player.id).nodup hnd

theorem otherScores_ne_nil (room : Room) (sid : String) (jr : Rank)
    (hnd : (room.players.map Player.id).Nodup)
    (hlen : 2 ≤ (activePlayers room).length) :
    otherScoresOf room sid jr ≠ [] := by
  rw [otherScoresOf_eq]
  intro hcon
  rw [List.map_eq_nil_iff, List.filter_eq_nil_iff] at hcon
  have hall : ∀ p ∈ activePlayers room, p.id = sid := by
    intro p hp
    have := hcon p hp
    simpa using this
  have hndA := active_map_id_nodup room hnd
  match hact : activePlayers room with
  | [] => rw [hact] at hlen; simp at hlen
  | [a] => rw [hact] at hlen; simp at hlen
  | a :: b :: t =>
    rw [hact] at hndA hall
    have hab : a.id ≠ b.id := by
      simp only [List.map_cons, List.nodup_cons] at hndA
      intro hcon2
      exact hndA.1 (by rw [hcon2]; exact List.mem_cons_self _ _)
    exact hab ((hall a (by simp)).trans (hall b (by simp)).symm)

/-- C1: with at least two active players, `declare_show` resolves as a
successful show (celebration to the caller) exactly when the caller's hand
score is strictly below the minimum hand score among the other active
players; on success every other active player's hand score is added to
that player's own total (the caller's total unchanged), and on a failed
bluff only the caller's total grows, by the penalty `callerScore + 25`
derived from the caller's own score. -/
theorem c1_declare_show (room : Room) (sid : String) (oj : Card) (caller : Player)
    (r' : Room) (sig : ShowSignal)
    (hj : room.openJoker = some oj)
    (hnd : (room.players.map Player.id).Nodup)
    (hfind : (activePlayers room).find? (fun p => p.id == sid) = some caller)
    (hlen : 2 ≤ (activePlayers room).length)
    (hrun : declare_show room sid = some (r', sig)) :
    (∃ m, (otherScoresOf room sid oj.rank).min? = some m ∧
        (sig = ShowSignal.celebration ↔ calculateScore caller.hand oj.rank < m)) ∧
    (sig = ShowSignal.celebration →
        r'.players.map Player.totalScore
          = room.players.map (fun p =>
              if !p.eliminated && p.id != sid then
                p.totalScore + calculateScore p.hand oj.rank
              else p.totalScore)) ∧
    (sig = ShowSignal.penalty →
        r'.players.map Player.totalScore
          = room.players.map (fun p =>
              if p.id == sid then
                p.totalScore + (calculateScore caller.hand oj.rank + 25)
              else p.totalScore)) := by
  have hce := scoreActive_find? room sid oj.rank caller hfind
  rw [declare_show_eq room sid oj _ hj hce] at hrun
  simp only [Option.some.injEq, Prod.mk.injEq] at hrun
  obtain ⟨hX, hY⟩ := hrun
  have hne := otherScores_ne_nil room sid oj.rank hnd hlen
  obtain ⟨m, hmin⟩ : ∃ m, (otherScoresOf room sid oj.rank).min? = some m := by
    cases hm : (otherScoresOf room sid oj.rank).min? with
    | none => exact absurd (List.min?_eq_none_iff.mp hm) hne
    | some m => exact ⟨m, rfl⟩
  by_cases hsucc :
      showSuccess (calculateScore caller.hand oj.rank) (otherScoresOf room sid oj.rank) = true
  · rw [if_pos hsucc] at hX
    rw [if_pos hsucc] at hY
    refine ⟨⟨m, hmin, ?_⟩, ?_, ?_⟩
    · rw [← hY]
      have hforall := (showSuccess_iff _ _).mp hsucc
      exact iff_of_true rfl ((lt_min?_iff _ m _ hmin).mpr hforall)
    · intro _
      rw [← hX, postStatus_players, elimPhase_map_totalScore]
      exact map_totalScore_successPlayers room sid oj.rank
    · intro hpen
      rw [← hY] at hpen
      exact absurd hpen (by simp)
  · rw [if_neg hsucc] at hX
    rw [if_neg hsucc] at hY
    refine ⟨⟨m, hmin, ?_⟩, ?_, ?_⟩
    · rw [← hY]
      constructor
      · intro hcel
        exact absurd hcel (by simp)
      · intro hlt
        exact absurd ((showSuccess_iff _ _).mpr
          ((lt_min?_iff _ m _ hmin).mp hlt)) hsucc
    · intro hcel
      rw [← hY] at hcel
      exact absurd hcel (by simp)
    · intro _
      rw [← hX, postStatus_players, elimPhase_map_totalScore]
      exact updateFirst_map_totalScore sid _ room.players hnd

/-! ### Concrete scenario used by the witnesses -/

def wOjCard : Card := { suit := "♠", rank := Rank.king, id := "k1" }

/-- A hand worth 5 points under open joker `K`. -/
def wHand5 : List Card :=
  [{ suit := "♠", rank := Rank.num 2, id := "a1" },
   { suit := "♣", rank := Rank.num 2, id := "a2" },
   { suit := "♥", rank := Rank.ace, id := "a3" }]

/-- A hand worth 9 points under open joker `K`. -/
def wHand9 : List Card :=
  [{ suit := "♦", rank := Rank.num 2, id := "b1" },
   { suit := "♠", rank := Rank.num 3, id := "b2" },
   { suit := "♣", rank := Rank.num 4, id := "b3" }]

def wP1 : Player :=
  { id := "p1", username := "alice", hand := wHand5, totalScore := 0,
    eliminated := false, currentDrawnCard := none }

def wP2 : Player :=
  { id := "p2", username := "bob", hand := wHand9, totalScore := 0,
    eliminated := false, currentDrawnCard := none }

def wShowRoom : Room :=
  { roomId := "ROOM", players := [wP1, wP2], deck := [], openJoker := some wOjCard,
    turn := 0, status := Status.PLAYING, hostId := "p1", roundLimit := 5,
    currentRound := 1 }

def wShowOut : Room × ShowSignal :=
  (declare_show wShowRoom "p1").getD (wShowRoom, ShowSignal.penalty)

theorem c1_witness :
    (∃ m, (otherScoresOf wShowRoom "p1" wOjCard.rank).min? = some m ∧
        (wShowOut.2 = ShowSignal.celebration ↔
          calculateScore wP1.hand wOjCard.rank < m)) ∧
    (wShowOut.2 = ShowSignal.celebration →
        wShowOut.1.players.map Player.totalScore
          = wShowRoom.players.map (fun p =>
              if !p.eliminated && p.id != "p1" then
                p.totalScore + calculateScore p.hand wOjCard.rank
              else p.totalScore)) ∧
    (wShowOut.2 = ShowSignal.penalty →
        wShowOut.1.players.map Player.totalScore
          = wShowRoom.players.map (fun p =>
              if p.id == "p1" then
                p.totalScore + (calculateScore wP1.hand wOjCard.rank + 25)
              else p.totalScore)) :=
  c1_declare_show wShowRoom "p1" wOjCard wP1 wShowOut.1 wShowOut.2 (by decide)
    (by decide) (by decide) (by decide) (by decide)

/-! ## C10: declaring alone always succeeds -/

/-- C10: when the caller is the only active player, the set of other
active scores is empty, so the declaration resolves as a successful show:
the caller receives `celebration` and no player's `totalScore` changes. -/
theorem c10_solo_declare (room : Room) (sid : String) (oj : Card) (caller : Player)
    (r' : Room) (sig : ShowSignal)
    (hj : room.openJoker = some oj)
    (hact : activePlayers room = [caller])
    (hid : caller.id = sid)
    (hrun : declare_show room sid = some (r', sig)) :
    sig = ShowSignal.celebration ∧
    r'.players.map Player.totalScore = room.players.map Player.totalScore := by
  have hfind : (activePlayers room).find? (fun p => p.id == sid) = some caller := by
    rw [hact]
    exact List.find?_cons_of_pos _ (by simp [hid])
  have hce := scoreActive_find? room sid oj.rank caller hfind
  rw [declare_show_eq room sid oj _ hj hce] at hrun
  have hempty : otherScoresOf room sid oj.rank = [] := by
    rw [otherScoresOf_eq, hact]
    simp [hid]
  have hsucc : showSuccess (calculateScore caller.hand oj.rank)
      (otherScoresOf room sid oj.rank) = true := by
    rw [hempty]
    rfl
  rw [if_pos hsucc, if_pos hsucc] at hrun
  simp only [Option.some.injEq, Prod.mk.injEq] at hrun
  obtain ⟨hX, hY⟩ := hrun
  refine ⟨hY.symm, ?_⟩
  rw [← hX, postStatus_players, elimPhase_map_totalScore, map_totalScore_successPlayers]
  apply List.map_congr_left
  intro p hp
  by_cases hel : p.eliminated
  · simp [hel]
  · have hmem : p ∈ activePlayers room :=
      List.mem_filter.mpr ⟨hp, by simp [hel]⟩
    rw [hact] at hmem
    simp only [List.mem_singleton] at hmem
    subst hmem
    simp [hid]

def wP2e : Player := { wP2 with eliminated := true }

def wSoloRoom : Room :=
  { roomId := "SOLO", players := [wP1, wP2e], deck := [], openJoker := some wOjCard,
    turn := 0, status := Status.PLAYING, hostId := "p1", roundLimit := 5,
    currentRound := 1 }

def wSoloOut : Room × ShowSignal :=
  (declare_show wSoloRoom "p1").getD (wSoloRoom, ShowSignal.penalty)

theorem c10_witness :
    wSoloOut.2 = ShowSignal.celebration ∧
    wSoloOut.1.players.map Player.totalScore = wSoloRoom.players.map Player.totalScore :=
  c10_solo_declare wSoloRoom "p1" wOjCard wP1 wSoloOut.1 wSoloOut.2 (by decide)
    (by decide) (by decide) (by decide)

/-! ## C7: the 5-versus-9 two-player scenario -/

theorem filter_not_elim_length_eq (ps : List Player) :
    ∀ qs : List Player, ps.map Player.eliminated = qs.map Player.eliminated →
      (ps.filter (fun p => !p.eliminated)).length
        = (qs.filter (fun p => !p.eliminated)).length := by
  induction ps with
  | nil =>
    intro qs h
    cases qs with
    | nil => rfl
    | cons q u => simp at h
  | cons p t ih =>
    intro qs h
    cases qs with
    | nil => simp at h
    | cons q u =>
      simp only [List.map_cons, List.cons.injEq] at h
      rw [List.filter_cons, List.filter_cons]
      by_cases hel : p.eliminated
      · rw [if_neg (by simp [hel]), if_neg (by simp [← h.1, hel])]
        exact ih u h.2
      · rw [if_pos (by simp [hel]), if_pos (by simp [← h.1, hel])]
        simp only [List.length_cons]
        rw [ih u h.2]

/-- C7: in a room whose two active players hold hands scoring 5 (the
caller) and 9, `declare_show` by the 5-point player succeeds: the caller's
total is unchanged, the other player's total grows by exactly 9, and —
the current round being below the round limit — the status returns to
LOBBY with the round counter incremented by one. -/
theorem c7_two_player_show (room : Room) (sid : String) (oj : Card) (a b : Player)
    (r' : Room) (sig : ShowSignal)
    (hj : room.openJoker = some oj)
    (hnd : (room.players.map Player.id).Nodup)
    (hact : activePlayers room = [a, b])
    (ha : a.id = sid)
    (hsa : calculateScore a.hand oj.rank = 5)
    (hsb : calculateScore b.hand oj.rank = 9)
    (hround : room.currentRound < room.roundLimit)
    (hrun : declare_show room sid = some (r', sig)) :
    sig = ShowSignal.celebration ∧
    r'.players.map Player.totalScore
      = room.players.map (fun p =>
          if p.id == b.id then p.totalScore + 9 else p.totalScore) ∧
    r'.status = Status.LOBBY ∧
    r'.currentRound = room.currentRound + 1 := by
  have hamem : a ∈ room.players := by
    have : a ∈ activePlayers room := by rw [hact]; simp
    exact List.mem_of_mem_filter this
  have hbmemA : b ∈ activePlayers room := by rw [hact]; simp
  have hbmem : b ∈ room.players := List.mem_of_mem_filter hbmemA
  have hbelim : b.eliminated = false := by
    simpa using (List.mem_filter.mp hbmemA).2
  have hinj := List.inj_on_of_nodup_map hnd
  have hane : a ≠ b := by
    intro h
    rw [h, hsb] at hsa
    exact absurd hsa (by decide)
  have hbne : b.id ≠ sid := fun h => hane (hinj hamem hbmem (by rw [ha, h]))
  have hanb : a.id ≠ b.id := fun h => hane (hinj hamem hbmem h)
  have hfind : (activePlayers room).find? (fun p => p.id == sid) = some a := by
    rw [hact]
    exact List.find?_cons_of_pos _ (by simp [ha])
  have hce := scoreActive_find? room sid oj.rank a hfind
  rw [declare_show_eq room sid oj _ hj hce] at hrun
  have hothers : otherScoresOf room sid oj.rank = [9] := by
    rw [otherScoresOf_eq, hact]
    simp [List.filter_cons, ha, hbne, hsb]
  have hsucc : showSuccess (calculateScore a.hand oj.rank)
      (otherScoresOf room sid oj.rank) = true := by
    rw [hothers, hsa]
    rfl
  rw [if_pos hsucc, if_pos hsucc] at hrun
  simp only [Option.some.injEq, Prod.mk.injEq] at hrun
  obtain ⟨hX, hY⟩ := hrun
  have hX' : r' = postStatus { room with
      players := successPlayers room sid oj.rank,
      currentRound := room.currentRound + 1 } := by
    rw [← hX]
    congr 1
    exact elimPhase_of_lt _ hround
  have hlenact : ((successPlayers room sid oj.rank).filter
      (fun p => !p.eliminated)).length = 2 := by
    rw [filter_not_elim_length_eq _ room.players (successPlayers_eliminated room sid oj.rank)]
    show (activePlayers room).length = 2
    rw [hact]
    rfl
  refine ⟨hY.symm, ?_, ?_, ?_⟩
  · rw [hX', postStatus_players]
    show (successPlayers room sid oj.rank).map Player.totalScore = _
    rw [map_totalScore_successPlayers]
    apply List.map_congr_left
    intro p hp
    by_cases hel : p.eliminated
    · have hpb : p.id ≠ b.id := by
        intro h
        have := hinj hp hbmem h
        rw [this, hbelim] at hel
        exact absurd hel (by decide)
      simp [hel, hpb]
    · have hmem : p ∈ activePlayers room :=
        List.mem_filter.mpr ⟨hp, by simp [hel]⟩
      rw [hact] at hmem
      simp only [List.mem_cons, List.mem_singleton, List.not_mem_nil, or_false] at hmem
      rcases hmem with rfl | rfl
      · have hsnb : ¬ (sid = b.id) := fun h => hanb (ha.trans h)
        simp [ha, hsnb]
      · simp [hbelim, hbne, hsb]
  · rw [hX']
    show (if ((successPlayers room sid oj.rank).filter
        (fun p => !p.eliminated)).length ≤ 1 then Status.WINNER else Status.LOBBY)
      = Status.LOBBY
    rw [hlenact]
    rfl
  · rw [hX']
    rfl

theorem c7_witness :
    wShowOut.2 = ShowSignal.celebration ∧
    wShowOut.1.players.map Player.totalScore
      = wShowRoom.players.map (fun p =>
          if p.id == wP2.id then p.totalScore + 9 else p.totalScore) ∧
    wShowOut.1.status = Status.LOBBY ∧
    wShowOut.1.currentRound = wShowRoom.currentRound + 1 :=
  c7_two_player_show wShowRoom "p1" wOjCard wP1 wP2 wShowOut.1 wShowOut.2 (by decide)
    (by decide) (by decide) (by decide) (by decide) (by decide) (by decide) (by decide)

/-! ## C2: WINNER detection and what WINNER does (not) reject -/

theorem postStatus_winner_iff (R : Room) :
    (postStatus R).status = Status.WINNER ↔
      (activePlayers (postStatus R)).length ≤ 1 := by
  show (if (R.players.filter (fun p => !p.eliminated)).length ≤ 1 then Status.WINNER
      else Status.LOBBY) = Status.WINNER ↔
    (R.players.filter (fun p => !p.eliminated)).length ≤ 1
  split
  · next h => exact iff_of_true rfl h
  · next h => exact iff_of_false (by decide) h

/-- C2 (amended): after any completed `declare_show` the room's status is
WINNER exactly when at most one non-eliminated player remains — in
particular the status becomes WINNER as soon as the elimination step
leaves one or zero active players.  (The frozen claim's further assertion
that WINNER rooms reject `draw_card`/`replace_card`/`declare_show` is
refuted by `c2_counterexample`: none of those handlers inspects
`status`.) -/
theorem c2_winner_status (room : Room) (sid : String) (r' : Room) (sig : ShowSignal)
    (hrun : declare_show room sid = some (r', sig)) :
    (r'.status = Status.WINNER ↔ (activePlayers r').length ≤ 1) := by
  cases hj : room.openJoker with
  | none => simp [declare_show, hj] at hrun
  | some oj =>
    cases hf : (scoreActive room oj.rank).find? (fun s => s.1 == sid) with
    | none => simp [declare_show, hj, hf] at hrun
    | some ce =>
      rw [declare_show_eq room sid oj ce hj hf] at hrun
      simp only [Option.some.injEq, Prod.mk.injEq] at hrun
      obtain ⟨hX, hY⟩ := hrun
      rw [← hX]
      exact postStatus_winner_iff _

/-- The room of the C2 counterexample before the fatal declaration:
two active players, round limit already reached, the caller holding the
worse hand. -/
def w2room : Room :=
  { roomId := "R2",
    players :=
      [{ id := "p1", username := "alice", hand := wHand9, totalScore := 0,
         eliminated := false, currentDrawnCard := none },
       { id := "p2", username := "bob", hand := wHand5, totalScore := 0,
         eliminated := false, currentDrawnCard := none }],
    deck := [wOjCard], openJoker := some wOjCard, turn := 1,
    status := Status.PLAYING, hostId := "p1", roundLimit := 1, currentRound := 1 }

def w2out : Room × ShowSignal :=
  (declare_show w2room "p1").getD (w2room, ShowSignal.celebration)

theorem c2_witness :
    w2out.1.status = Status.WINNER ↔ (activePlayers w2out.1).length ≤ 1 :=
  c2_winner_status w2room "p1" w2out.1 w2out.2 (by decide)

/-- C2 counterexample: the failed bluff eliminates the caller, one active
player remains and the status becomes WINNER — yet the remaining turn
player's `draw_card` is accepted and mutates the room (the handler never
checks `status`), refuting the claim that WINNER rooms reject such
requests. -/
theorem c2_counterexample :
    declare_show w2room "p1" = some (w2out.1, w2out.2) ∧
    w2out.1.status = Status.WINNER ∧
    draw_card w2out.1 "p2" [] ≠ none ∧
    draw_card w2out.1 "p2" [] ≠ some w2out.1 := by
  refine ⟨by decide, by decide, by decide, by decide⟩

/-! ## C3: replace_card -/

theorem advanceTurn_finds_active (players : List Player) :
    ∀ (fuel nt : Nat), nt < players.length →
      (∃ d, d < fuel ∧ ∃ q, players.get? ((nt + d) % players.length) = some q ∧
          q.eliminated = false) →
      ∃ q, players.get? (advanceTurn players nt fuel) = some q ∧
        q.eliminated = false := by
  intro fuel
  induction fuel with
  | zero =>
    intro nt _ hex
    obtain ⟨d, hd, _⟩ := hex
    exact absurd hd (Nat.not_lt_zero d)
  | succ n ih =>
    intro nt hnt hex
    rw [advanceTurn]
    by_cases hcur : ((players.get? nt).elim false Player.eliminated) = true
    · rw [if_pos hcur]
      obtain ⟨d, hd, q, hq, hqe⟩ := hex
      have hlen : 0 < players.length := Nat.zero_lt_of_lt hnt
      have hd1 : 1 ≤ d := by
        rcases Nat.eq_zero_or_pos d with rfl | h1
        · exfalso
          rw [Nat.add_zero, Nat.mod_eq_of_lt hnt] at hq
          rw [hq] at hcur
          simp [hqe] at hcur
        · exact h1
      apply ih ((nt + 1) % players.length) (Nat.mod_lt _ hlen)
      refine ⟨d - 1, by omega, q, ?_, hqe⟩
      rw [Nat.mod_add_mod]
      have harith : nt + 1 + (d - 1) = nt + d := by omega
      rw [harith]
      exact hq
    · rw [if_neg hcur]
      cases hg : players.get? nt with
      | none =>
        rw [List.get?_eq_none] at hg
        omega
      | some q =>
        rw [hg] at hcur
        refine ⟨q, rfl, ?_⟩
        simpa using hcur

theorem advanceTurn_result_active (players : List Player) (nt : Nat)
    (hnt : nt < players.length)
    (k : Nat) (q0 : Player) (hk : players.get? k = some q0)
    (hq0 : q0.eliminated = false) :
    ∃ q, players.get? (advanceTurn players nt players.length) = some q ∧
      q.eliminated = false := by
  have hlen : 0 < players.length := Nat.zero_lt_of_lt hnt
  have hklt : k < players.length := (List.get?_eq_some.mp hk).1
  apply advanceTurn_finds_active players players.length nt hnt
  refine ⟨(k + players.length - nt) % players.length, Nat.mod_lt _ hlen, q0, ?_, hq0⟩
  rw [Nat.add_mod_mod]
  have harith : nt + (k + players.length - nt) = k + players.length := by omega
  rw [harith, Nat.add_mod_right, Nat.mod_eq_of_lt hklt]
  exact hk

/-- C3 (amended): `replace_card` is rejected (no mutation) whenever the
requester is absent from the room or holds no staged card — but the
handler performs no current-turn check, so any player holding a staged
card may commit it (see `c3_counterexample`).  On success exactly the
requester's entry is rewritten — hand cards whose id equals
`cardToDiscardId` are replaced by the staged card and the staging slot is
cleared — and the new `turn`, found by the search bounded by
`players.length` steps, is non-negative and references a non-eliminated
player whenever any non-eliminated player exists; when all players are
eliminated the operation still succeeds (it is not a no-op/error) and the
new turn may reference an eliminated player. -/
theorem c3_replace_card (room : Room) (sid cid : String) :
    (∀ r', replace_card room sid cid = some r' →
      ∃ i player staged,
        room.players.findIdx? (fun p => p.id == sid) = some i ∧
        room.players.get? i = some player ∧
        player.currentDrawnCard = some staged ∧
        r'.players = room.players.set i
          { player with
            hand := player.hand.map (fun c => if c.id == cid then staged else c),
            currentDrawnCard := none } ∧
        r'.deck = room.deck ∧ r'.status = room.status ∧
        0 ≤ r'.turn ∧
        ((∃ q ∈ r'.players, q.eliminated = false) →
          ∃ q, r'.players.get? r'.turn.toNat = some q ∧ q.eliminated = false)) ∧
    (room.players.findIdx? (fun p => p.id == sid) = none →
      replace_card room sid cid = none) ∧
    (∀ i player, room.players.findIdx? (fun p => p.id == sid) = some i →
      room.players.get? i = some player → player.currentDrawnCard = none →
      replace_card room sid cid = none) := by
  refine ⟨?_, ?_, ?_⟩
  · intro r' hr
    cases hidx : room.players.findIdx? (fun p => p.id == sid) with
    | none => simp [replace_card, hidx] at hr
    | some i =>
      cases hget : room.players.get? i with
      | none =>
        have hgetE : room.players[i]? = none := by
          rw [← List.get?_eq_getElem?]; exact hget
        simp [replace_card, hidx, hgetE] at hr
      | some player =>
        have hgetE : room.players[i]? = some player := by
          rw [← List.get?_eq_getElem?]; exact hget
        cases hstag : player.currentDrawnCard with
        | none => simp [replace_card, hidx, hgetE, hstag] at hr
        | some staged =>
          simp only [replace_card, hidx, hget, hstag, Option.some.injEq] at hr
          subst hr
          refine ⟨i, player, staged, rfl, hget, hstag, rfl, rfl, rfl,
            Int.natCast_nonneg _, ?_⟩
          intro hex
          obtain ⟨q0, hq0mem, hq0act⟩ := hex
          obtain ⟨k, hk⟩ := List.mem_iff_get?.mp hq0mem
          have hlenset : (room.players.set i
              { player with
                hand := player.hand.map (fun c => if c.id == cid then staged else c),
                currentDrawnCard := none }).length = room.players.length :=
            List.length_set _ _ _
          have hlen : 0 < room.players.length := by
            have := (List.get?_eq_some.mp hget).1
            omega
          have hnt0 : (((room.turn + 1).emod
              ((room.players.set i
                { player with
                  hand := player.hand.map (fun c => if c.id == cid then staged else c),
                  currentDrawnCard := none }).length : Int)).toNat)
              < (room.players.set i
                { player with
                  hand := player.hand.map (fun c => if c.id == cid then staged else c),
                  currentDrawnCard := none }).length := by
            rw [hlenset]
            have hz : ((room.players.length : Int)) ≠ 0 := by
              exact_mod_cast Nat.pos_iff_ne_zero.mp hlen
            have h1 : (0:Int) ≤ (room.turn + 1).emod (room.players.length : Int) :=
              Int.emod_nonneg _ hz
            have h2 : (room.turn + 1).emod (room.players.length : Int)
                < (room.players.length : Int) :=
              Int.emod_lt_of_pos _ (by exact_mod_cast hlen)
            rw [Int.toNat_lt h1]
            exact h2
          simp only [Int.toNat_natCast]
          exact advanceTurn_result_active _ _ hnt0 k q0 hk hq0act
  · intro hidx
    simp [replace_card, hidx]
  · intro i player hidx hget hstag
    have hgetE : room.players[i]? = some player := by
      rw [← List.get?_eq_getElem?]; exact hget
    simp [replace_card, hidx, hgetE, hstag]

def wStaged : Card := { suit := "♥", rank := Rank.num 7, id := "s1" }

def wRepRoom : Room :=
  { roomId := "REP",
    players := [{ wP1 with currentDrawnCard := some wStaged }, wP2],
    deck := [], openJoker := some wOjCard, turn := 0, status := Status.PLAYING,
    hostId := "p1", roundLimit := 5, currentRound := 1 }

def wRepOut : Room := (replace_card wRepRoom "p1" "a2").getD wRepRoom

theorem c3_witness :
    ∃ i player staged,
      wRepRoom.players.findIdx? (fun p => p.id == "p1") = some i ∧
      wRepRoom.players.get? i = some player ∧
      player.currentDrawnCard = some staged ∧
      wRepOut.players = wRepRoom.players.set i
        { player with
          hand := player.hand.map (fun c => if c.id == "a2" then staged else c),
          currentDrawnCard := none } ∧
      wRepOut.deck = wRepRoom.deck ∧ wRepOut.status = wRepRoom.status ∧
      0 ≤ wRepOut.turn ∧
      ((∃ q ∈ wRepOut.players, q.eliminated = false) →
        ∃ q, wRepOut.players.get? wRepOut.turn.toNat = some q ∧
          q.eliminated = false) :=
  (c3_replace_card wRepRoom "p1" "a2").1 wRepOut (by decide)

def w3room : Room :=
  { roomId := "R3",
    players := [wP1, { wP2 with currentDrawnCard := some wStaged }],
    deck := [], openJoker := some wOjCard, turn := 0, status := Status.PLAYING,
    hostId := "p1", roundLimit := 5, currentRound := 1 }

/-- C3 counterexample: with `turn` pointing at p1, the non-turn player p2
(holding a staged card) successfully commits `replace_card` and the room
is mutated — the handler never compares the requester with
`players[turn]`, refuting "fails unless the requester is the current-turn
player". -/
theorem c3_counterexample :
    (w3room.players.get? w3room.turn.toNat).map Player.id = some "p1" ∧
    replace_card w3room "p2" "b2" ≠ none ∧
    replace_card w3room "p2" "b2" ≠ some w3room := by
  refine ⟨by decide, by decide, by decide⟩

/-! ## C6: totalScore never decreases -/

theorem dealHands_map_totalScore :
    ∀ (ps : List Player) (d : List Card),
      (dealHands ps d).1.map Player.totalScore = ps.map Player.totalScore := by
  intro ps
  induction ps with
  | nil => intro d; rfl
  | cons p t ih =>
    intro d
    rw [dealHands]
    by_cases hel : p.eliminated = true
    · rw [if_pos hel]
      simp only [List.map_cons]
      rw [ih]
    · rw [if_neg hel]
      simp only [List.map_cons]
      rw [ih]

theorem map_totalScore_set (ps : List Player) :
    ∀ (i : Nat) (p q : Player), ps.get? i = some p → q.totalScore = p.totalScore →
      (ps.set i q).map Player.totalScore = ps.map Player.totalScore := by
  induction ps with
  | nil => intro i p q hget _; simp at hget
  | cons a t ih =>
    intro i p q hget hts
    cases i with
    | zero =>
      have hap : a = p := Option.some.inj hget
      show (q :: t).map Player.totalScore = (a :: t).map Player.totalScore
      simp only [List.map_cons]
      rw [hts, ← hap]
    | succ n =>
      show (a :: t.set n q).map Player.totalScore = (a :: t).map Player.totalScore
      simp only [List.map_cons]
      rw [ih n p q hget hts]

theorem scoreActive_snd_nonneg (room : Room) (jr : Rank) (ce : String × Int)
    (hce : ce ∈ scoreActive room jr) : 0 ≤ ce.2 := by
  rw [scoreActive] at hce
  obtain ⟨p, _, rfl⟩ := List.mem_map.mp hce
  exact calculateScore_nonneg p.hand jr

/-- C6: no handler ever decreases a player's cumulative `totalScore`:
`create_room` starts the creator at 0; `join_room` appends a fresh player
at 0; `start_game`, `draw_card` and `replace_card` leave every total
unchanged; `declare_show` only adds non-negative amounts (hand scores, or
the `callerScore + 25` penalty); `disconnect` merely removes one player,
leaving the remaining totals unchanged. -/
theorem c6_totalScore_monotone :
    (∀ sid u rl rid, (create_room sid u rl rid).players.map Player.totalScore = [0]) ∧
    (∀ room sid u r', join_room room sid u = some r' →
      r'.players.map Player.totalScore
        = room.players.map Player.totalScore ++ [0]) ∧
    (∀ room sid fresh r', start_game room sid fresh = some r' →
      r'.players.map Player.totalScore = room.players.map Player.totalScore) ∧
    (∀ room sid fresh r', draw_card room sid fresh = some r' →
      r'.players.map Player.totalScore = room.players.map Player.totalScore) ∧
    (∀ room sid cid r', replace_card room sid cid = some r' →
      r'.players.map Player.totalScore = room.players.map Player.totalScore) ∧
    (∀ room sid r' sig, declare_show room sid = some (r', sig) →
      ∀ i p q, room.players.get? i = some p → r'.players.get? i = some q →
        p.totalScore ≤ q.totalScore) ∧
    (∀ room sid r', disconnect_room room sid = DisconnectResult.updated r' →
      (r'.players.map Player.totalScore).Sublist
        (room.players.map Player.totalScore)) := by
  refine ⟨?_, ?_, ?_, ?_, ?_, ?_, ?_⟩
  · intro sid u rl rid
    rfl
  · intro room sid u r' h
    rw [join_room] at h
    split at h
    · exact absurd h (by simp)
    · simp only [Option.some.injEq] at h
      subst h
      simp [newPlayer]
  · intro room sid fresh r' h
    rw [start_game] at h
    split at h
    · exact absurd h (by simp)
    · simp only [Option.some.injEq] at h
      subst h
      exact dealHands_map_totalScore room.players _
  · intro room sid fresh r' h
    simp only [draw_card] at h
    split at h
    · exact absurd h (by simp)
    · split at h
      · exact absurd h (by simp)
      · split at h
        · exact absurd h (by simp)
        · split at h
          · exact absurd h (by simp)
          · next p hget =>
            simp only [Option.some.injEq] at h
            subst h
            exact map_totalScore_set room.players _ p _ hget rfl
  · intro room sid cid r' h
    simp only [replace_card] at h
    split at h
    · exact absurd h (by simp)
    · split at h
      · exact absurd h (by simp)
      · next player hget =>
        split at h
        · exact absurd h (by simp)
        · simp only [Option.some.injEq] at h
          subst h
          exact map_totalScore_set room.players _ player _ hget rfl
  · intro room sid r' sig h
    cases hj : room.openJoker with
    | none => simp [declare_show, hj] at h
    | some oj =>
      cases hf : (scoreActive room oj.rank).find? (fun s => s.1 == sid) with
      | none => simp [declare_show, hj, hf] at h
      | some ce =>
        rw [declare_show_eq room sid oj ce hj hf] at h
        simp only [Option.some.injEq, Prod.mk.injEq] at h
        obtain ⟨hX, _⟩ := h
        intro i p q hp hq
        have hmap : r'.players.map Player.totalScore
            = (if showSuccess ce.2 (otherScoresOf room sid oj.rank) then
                successPlayers room sid oj.rank
              else penaltyPlayers room sid ce.2).map Player.totalScore := by
          rw [← hX, postStatus_players, elimPhase_map_totalScore]
        have hq' : (r'.players.map Player.totalScore).get? i = some q.totalScore := by
          rw [List.get?_map, hq]
          rfl
        rw [hmap] at hq'
        by_cases hsucc :
            showSuccess ce.2 (otherScoresOf room sid oj.rank) = true
        · rw [if_pos hsucc, map_totalScore_successPlayers, List.get?_map, hp] at hq'
          simp only [Option.map_some'] at hq'
          have := Option.some.inj hq'
          rw [← this]
          split
          · have := calculateScore_nonneg p.hand oj.rank
            omega
          · exact le_refl _
        · rw [if_neg hsucc] at hq'
          rw [List.get?_map] at hq'
          obtain ⟨q2, hq2, hq2ts⟩ := Option.map_eq_some'.mp hq'
          obtain ⟨p2, hp2, hor⟩ := updateFirst_get? _ _ room.players i q2 hq2
          have hpp2 : p2 = p := Option.some.inj (hp2.symm.trans hp)
          have hce2 : 0 ≤ ce.2 :=
            scoreActive_snd_nonneg room oj.rank ce (List.mem_of_find?_eq_some hf)
          rcases hor with rfl | rfl
          · rw [← hq2ts, hpp2]
          · rw [← hq2ts]
            simp only [hpp2]
            omega
  · intro room sid r' h
    cases hidx : room.players.findIdx? (fun p => p.id == sid) with
    | none => simp [disconnect_room, hidx] at h
    | some i =>
      cases her : room.players.eraseIdx i with
      | nil => simp [disconnect_room, hidx, her] at h
      | cons q qs =>
        simp only [disconnect_room, hidx, her, DisconnectResult.updated.injEq] at h
        subst h
        show ((q :: qs).map Player.totalScore).Sublist _
        rw [← her]
        exact (List.eraseIdx_sublist _ i).map _

def wLobbyRoom : Room := { wShowRoom with status := Status.LOBBY }

def w6join : Room := (join_room wLobbyRoom "p3" "carol").getD wLobbyRoom

def w6start : Room := (start_game wShowRoom "p1" wHand9).getD wShowRoom

def w6draw : Room := (draw_card wShowRoom "p1" [wStaged]).getD wShowRoom

def w6q : Player := (wShowOut.1.players.get? 0).getD wP1

def w6disc : Room :=
  match disconnect_room wShowRoom "p1" with
  | DisconnectResult.updated r => r
  | _ => wShowRoom

theorem c6_witness :
    (create_room "s" "u" 5 "RID").players.map Player.totalScore = [0] ∧
    w6join.players.map Player.totalScore
      = wLobbyRoom.players.map Player.totalScore ++ [0] ∧
    w6start.players.map Player.totalScore
      = wShowRoom.players.map Player.totalScore ∧
    w6draw.players.map Player.totalScore
      = wShowRoom.players.map Player.totalScore ∧
    wRepOut.players.map Player.totalScore
      = wRepRoom.players.map Player.totalScore ∧
    wP1.totalScore ≤ w6q.totalScore ∧
    (w6disc.players.map Player.totalScore).Sublist
      (wShowRoom.players.map Player.totalScore) :=
  ⟨c6_totalScore_monotone.1 "s" "u" 5 "RID",
   c6_totalScore_monotone.2.1 wLobbyRoom "p3" "carol" w6join (by decide),
   c6_totalScore_monotone.2.2.1 wShowRoom "p1" wHand9 w6start (by decide),
   c6_totalScore_monotone.2.2.2.1 wShowRoom "p1" [wStaged] w6draw (by decide),
   c6_totalScore_monotone.2.2.2.2.1 wRepRoom "p1" "a2" wRepOut (by decide),
   c6_totalScore_monotone.2.2.2.2.2.1 wShowRoom "p1" wShowOut.1 wShowOut.2
     (by decide) 0 wP1 w6q (by decide) (by decide),
   c6_totalScore_monotone.2.2.2.2.2.2 wShowRoom "p1" w6disc (by decide)⟩

/-! ## C8: disconnect -/

theorem lookup_disconnect_registry_of_not_mem (sid rid : String) :
    ∀ reg : List (String × Room), (∀ e ∈ reg, rid ≠ e.1) →
      List.lookup rid (disconnect_registry reg sid) = none := by
  intro reg
  induction reg with
  | nil => intro _; rfl
  | cons e t ih =>
    intro hne
    obtain ⟨k, v⟩ := e
    have hk : (rid == k) = false := by
      simp only [beq_eq_false_iff_ne, ne_eq]
      exact hne (k, v) (by simp)
    rw [disconnect_registry, List.filterMap_cons]
    cases hd : disconnect_room v sid with
    | notMember =>
      simp only [hd]
      rw [List.lookup_cons]
      simp only [hk]
      exact ih (fun e he => hne e (List.mem_cons_of_mem _ he))
    | deleted =>
      simp only [hd]
      exact ih (fun e he => hne e (List.mem_cons_of_mem _ he))
    | updated r =>
      simp only [hd]
      rw [List.lookup_cons]
      simp only [hk]
      exact ih (fun e he => hne e (List.mem_cons_of_mem _ he))

/-- C8: `disconnect` splices the departing player out of the room's
player sequence; when the departing player was the host and players
remain, the first remaining player in insertion order (the next player,
hosts being created at the head) is promoted to host; and when the
removed player was the last one, the room entry disappears from the
registry. -/
theorem c8_disconnect (room : Room) (sid : String) :
    (∀ i, room.players.findIdx? (fun p => p.id == sid) = some i →
      ((room.players.eraseIdx i = [] →
          disconnect_room room sid = DisconnectResult.deleted) ∧
       (∀ q qs, room.players.eraseIdx i = q :: qs →
          disconnect_room room sid = DisconnectResult.updated
            { room with players := q :: qs,
                        hostId := if room.hostId = sid then q.id
                                  else room.hostId }))) ∧
    (∀ (roomsReg : List (String × Room)) (rid : String),
      (roomsReg.map Prod.fst).Nodup →
      List.lookup rid roomsReg = some room →
      disconnect_room room sid = DisconnectResult.deleted →
      List.lookup rid (disconnect_registry roomsReg sid) = none) := by
  refine ⟨?_, ?_⟩
  · intro i hidx
    constructor
    · intro her
      simp [disconnect_room, hidx, her]
    · intro q qs her
      simp [disconnect_room, hidx, her]
  · intro roomsReg rid hnd hlk hdel
    induction roomsReg with
    | nil => simp at hlk
    | cons e t ih =>
      obtain ⟨k, v⟩ := e
      simp only [List.map_cons, List.nodup_cons] at hnd
      rw [List.lookup_cons] at hlk
      by_cases hk : (rid == k) = true
      · have hveq : v = room := by
          rw [hk] at hlk
          exact Option.some.inj hlk
        rw [disconnect_registry, List.filterMap_cons]
        rw [hveq, hdel]
        apply lookup_disconnect_registry_of_not_mem
        intro e he hcon
        have hrk : rid = k := by simpa using hk
        apply hnd.1
        rw [← hrk, hcon]
        exact List.mem_map_of_mem Prod.fst he
      · have hk' : (rid == k) = false := by
          simpa using hk
        rw [hk'] at hlk
        have hrest := ih hnd.2 hlk
        rw [disconnect_registry, List.filterMap_cons]
        cases hd : disconnect_room v sid with
        | notMember =>
          simp only [hd]
          rw [List.lookup_cons]
          simp only [hk']
          exact hrest
        | deleted =>
          simp only [hd]
          exact hrest
        | updated r =>
          simp only [hd]
          rw [List.lookup_cons]
          simp only [hk']
          exact hrest

def w8room : Room :=
  { roomId := "R8", players := [wP1, wP2], deck := [], openJoker := none,
    turn := 0, status := Status.LOBBY, hostId := "p1", roundLimit := 5,
    currentRound := 1 }

def w8solo : Room :=
  { roomId := "R8S", players := [wP2], deck := [], openJoker := none,
    turn := 0, status := Status.LOBBY, hostId := "p2", roundLimit := 5,
    currentRound := 1 }

theorem c8_witness :
    disconnect_room w8room "p1" = DisconnectResult.updated
      { w8room with players := [wP2],
                    hostId := if w8room.hostId = "p1" then wP2.id
                              else w8room.hostId } ∧
    List.lookup "R8S" (disconnect_registry [("R8S", w8solo)] "p2") = none :=
  ⟨((c8_disconnect w8room "p1").1 0 (by decide)).2 wP2 [] (by decide),
   (c8_disconnect w8solo "p2").2 [("R8S", w8solo)] "R8S" (by decide) (by decide)
     (by decide)⟩

/-! ## C4: hand scoring decomposition -/

/-- C4: for every 3-card hand and open-joker rank, the computed score is
the sum of the per-card contributions described by the specification
(joker or open-joker rank gives 0, faces give the fixed constant 10, Ace
gives 1, numeric ranks their value), and the score is non-negative. -/
theorem c4_hand_score (ca cb cc : Card) (jr : Rank) :
    calculateScore [ca, cb, cc] jr =
      specCardContribution jr ca + specCardContribution jr cb +
        specCardContribution jr cc ∧
    0 ≤ calculateScore [ca, cb, cc] jr := by
  refine ⟨?_, calculateScore_nonneg _ _⟩
  simp [calculateScore, cardValue_eq_specCardContribution]

/-! ## C9: scoring is order-independent -/

/-- C9: permuting a hand's cards does not change its computed score. -/
theorem c9_score_perm_invariant (h1 h2 : List Card) (jr : Rank) (hp : h1.Perm h2) :
    calculateScore h1 jr = calculateScore h2 jr := by
  rw [calculateScore_eq_sum, calculateScore_eq_sum]
  exact (hp.map (cardValue jr)).sum_eq

def wCardA : Card := { suit := "♠", rank := Rank.num 4, id := "wa" }

def wCardB : Card := { suit := "♥", rank := Rank.jack, id := "wb" }

def wCardC : Card := { suit := "🃏", rank := Rank.joker, id := "wc" }

theorem c9_witness :
    ([wCardA, wCardB, wCardC] : List Card).Perm [wCardC, wCardA, wCardB] ∧
    calculateScore [wCardA, wCardB, wCardC] Rank.queen =
      calculateScore [wCardC, wCardA, wCardB] Rank.queen :=
  ⟨by decide, c9_score_perm_invariant _ _ _ (by decide)⟩

/-! ## C5: deck size and id uniqueness -/

/-- C5 as frozen is refuted: `createDeck` draws the 52 ranked-card ids
from unchecked `Math.random` strings, so nothing prevents two cards from
receiving the same id.  With the generator returning the same string for
every card (and the identity rearrangement, an admissible outcome of the
comparator shuffle), the built deck has duplicate ids. -/
theorem c5_counterexample :
    ¬ ((((createDeck (fun _ => "x") (fun l => l)).map Card.id).Nodup) ∧
        (createDeck (fun _ => "x") (fun l => l)).length = 52 + 2) := by
  intro h
  have h1 := h.1
  rw [createDeck, baseDeck_map_id] at h1
  simp [List.range_succ] at h1

/-- C5 (amended): every built deck has exactly 52 ranked cards plus the 2
jokers, i.e. 54 cards; and whenever the 52 generated id strings are
pairwise distinct and distinct from the fixed joker ids, all card ids in
the deck are pairwise distinct.  (`hs` states that the comparator-based
shuffle yields some rearrangement of the built cards.) -/
theorem c5_deck_build (ids : Nat → String) (shuffle : List Card → List Card)
    (hs : (createDeck ids shuffle).Perm (baseDeck ids))
    (hnd : ((List.range 52).map ids ++ ["Joker1", "Joker2"]).Nodup) :
    (createDeck ids shuffle).length = 52 + 2 ∧
    ((createDeck ids shuffle).map Card.id).Nodup := by
  constructor
  · rw [hs.length_eq, baseDeck_length]
  · have hperm := hs.map Card.id
    rw [baseDeck_map_id] at hperm
    exact hperm.nodup_iff.mpr hnd

theorem c5_deck_build_witness :
    (createDeck (fun i => toString i) (fun l => l)).length = 52 + 2 ∧
    ((createDeck (fun i => toString i) (fun l => l)).map Card.id).Nodup :=
  c5_deck_build (fun i => toString i) (fun l => l) (List.Perm.refl _) (by decide)

end Cards3
